import Mathlib

/-!
Verification of the splash log-tailing and highlighting tool.

This file gives a shallow embedding of the program's core components and
proves (or refutes) the specified properties about them:

* the Tailer's per-event delta computation (`watchStep`, from `watch` in
  `main.rs`);
* semantic-version compatibility (`PluginVersion.is_compatible_with`, from
  `plugin.rs`);
* the plugin capability contract (`can_parse`, `detect_format`, from
  `plugin.rs`);
* the plugin registry state machine (`PluginRegistry.*`, from `registry.rs`);
* plugin discovery name matching (`find_plugin`, from `discovery.rs`);
* the common-log-format extractor (`clfRecords`, a hand-compilation of the
  regular expression in `print_clf` in `main.rs`);
* the token highlighter (`highlight_word`, `print_highlighted`, from
  `main.rs`).

Strings are modelled as `List Char`.  Terminal colour rendering (the external
`colored` crate) is abstracted as marker sequences wrapped around unchanged
characters; the exact marker bytes do not matter to any property proved here.
-/

/-! ## Character classes used by the regular expressions

`rxSpace` models the regex class `\s` and Rust's `char::is_whitespace`
(the Unicode White_Space property).  `rxDigit` models `\d`, which the
regex crate resolves in its default Unicode mode to the decimal-digit
category Nd; `ndRanges` is the Unicode 15.0 table of Nd code-point ranges.
`rxUpperAZ` models the literal range `[A-Z]`. -/

def rxSpace (c : Char) : Bool :=
  (0x09 ≤ c.val && c.val ≤ 0x0D) || c.val == 0x20 || c.val == 0x85 ||
  c.val == 0xA0 || c.val == 0x1680 || (0x2000 ≤ c.val && c.val ≤ 0x200A) ||
  c.val == 0x2028 || c.val == 0x2029 || c.val == 0x202F ||
  c.val == 0x205F || c.val == 0x3000

def ndRanges : List (UInt32 × UInt32) :=
  [(0x30, 0x39), (0x660, 0x669), (0x6F0, 0x6F9), (0x7C0, 0x7C9),
   (0x966, 0x96F), (0x9E6, 0x9EF), (0xA66, 0xA6F), (0xAE6, 0xAEF),
   (0xB66, 0xB6F), (0xBE6, 0xBEF), (0xC66, 0xC6F), (0xCE6, 0xCEF),
   (0xD66, 0xD6F), (0xDE6, 0xDEF), (0xE50, 0xE59), (0xED0, 0xED9),
   (0xF20, 0xF29), (0x1040, 0x1049), (0x1090, 0x1099), (0x17E0, 0x17E9),
   (0x1810, 0x1819), (0x1946, 0x194F), (0x19D0, 0x19D9), (0x1A80, 0x1A89),
   (0x1A90, 0x1A99), (0x1B50, 0x1B59), (0x1BB0, 0x1BB9), (0x1C40, 0x1C49),
   (0x1C50, 0x1C59), (0xA620, 0xA629), (0xA8D0, 0xA8D9), (0xA900, 0xA909),
   (0xA9D0, 0xA9D9), (0xA9F0, 0xA9F9), (0xAA50, 0xAA59), (0xABF0, 0xABF9),
   (0xFF10, 0xFF19), (0x104A0, 0x104A9), (0x10D30, 0x10D39),
   (0x11066, 0x1106F), (0x110F0, 0x110F9), (0x11136, 0x1113F),
   (0x111D0, 0x111D9), (0x112F0, 0x112F9), (0x11450, 0x11459),
   (0x114D0, 0x114D9), (0x11650, 0x11659), (0x116C0, 0x116C9),
   (0x11730, 0x11739), (0x118E0, 0x118E9), (0x11950, 0x11959),
   (0x11C50, 0x11C59), (0x11D50, 0x11D59), (0x11DA0, 0x11DA9),
   (0x11F50, 0x11F59), (0x16A60, 0x16A69), (0x16AC0, 0x16AC9),
   (0x16B50, 0x16B59), (0x1D7CE, 0x1D7FF), (0x1E140, 0x1E149),
   (0x1E2F0, 0x1E2F9), (0x1E4F0, 0x1E4F9), (0x1E950, 0x1E959),
   (0x1FBF0, 0x1FBF9)]

def rxDigit (c : Char) : Bool :=
  ndRanges.any (fun r => decide (r.1 ≤ c.val) && decide (c.val ≤ r.2))

def rxUpperAZ (c : Char) : Bool :=
  decide ('A' ≤ c ∧ c ≤ 'Z')

/-! ## Tailer (`watch` in `main.rs`)

The watch loop keeps a byte offset `pos`.  On start it reads the whole file
and sets `pos` to its length.  On each change notification it opens the
file, seeks to `pos`, records the file's current length as the new `pos`,
reads from the seek position to end-of-file, and emits exactly the bytes
read as one batch.  `watchStep` is the body of that loop for one observed
file snapshot: a seek past end-of-file followed by a read yields no bytes,
which `List.drop` models exactly. -/

def watchStep (file : List Char) (pos : Nat) : List Char × Nat :=
  (file.drop pos, file.length)

/-- Initial offset established on tail start: the length of the file's
content at that moment (`contents.len()` in `watch`). -/
def tailStartPos (file : List Char) : Nat :=
  file.length

/-- Run the watch loop over a sequence of observed file snapshots (one
change notification per snapshot), collecting the emitted batches. -/
def tailBatches (initial : List Char) (snapshots : List (List Char)) : List (List Char) :=
  go (tailStartPos initial) snapshots
where
  go : Nat → List (List Char) → List (List Char)
    | _, [] => []
    | pos, f :: fs =>
      let st := watchStep f pos
      st.1 :: go st.2 fs

/-! ## Plugin versions (`plugin.rs`) -/

structure PluginVersion where
  major : Nat
  minor : Nat
  patch : Nat
deriving DecidableEq

/-- Model of `PluginVersion::is_compatible_with`: compatible if major versions match
and this version is at least the other version. -/
def PluginVersion.is_compatible_with (self other : PluginVersion) : Bool :=
  if self.major ≠ other.major then false
  else if self.minor < other.minor then false
  else if self.minor = other.minor ∧ self.patch < other.patch then false
  else true

/-! ## Plugin contract (`plugin.rs`) -/

structure PluginMetadata where
  name : String
  version : PluginVersion
  description : String
  author : String

inductive ParseResult where
  | Parsed (rendered : String)
  | NoMatch
  | Error (message : String)

/-- A plugin: metadata plus the one required operation `parse_line`.
`can_parse` and `detect_format` below are the trait's default derivations. -/
structure Plugin where
  metadata : PluginMetadata
  parse_line : String → ParseResult

def Plugin.name (p : Plugin) : String :=
  p.metadata.name

def Plugin.version (p : Plugin) : PluginVersion :=
  p.metadata.version

/-- Default `can_parse`: true exactly when `parse_line` yields `Parsed`. -/
def Plugin.can_parse (p : Plugin) (line : String) : Bool :=
  match p.parse_line line with
  | ParseResult.Parsed _ => true
  | _ => false

/-- Default `detect_format`: 0 for an empty sample set, otherwise the
fraction of samples for which `can_parse` holds.  The Rust code computes
this in `f32`; at every value this development asserts exactly (0, 1, 1/2)
the `f32` arithmetic is exact, so the rational model is faithful there. -/
def Plugin.detect_format (p : Plugin) (sample_lines : List String) : Rat :=
  if sample_lines.isEmpty then 0
  else ((sample_lines.filter p.can_parse).length : Rat) / (sample_lines.length : Rat)

/-! ## Plugin registry (`registry.rs`)

The `HashMap<String, Arc<dyn Plugin>>` is modelled as an association list
keyed by plugin name and the `Vec<String>` of disabled names as a list.
Every operation returns its `Result` together with the registry state after
the call, since the Rust methods mutate in place behind the `RwLock`s.
Lock poisoning (`RegistryError::RegistryLocked`) only arises from a
panicked concurrent writer and is outside this sequential model. -/

inductive RegistryError where
  | PluginNotFound (name : String)
  | PluginAlreadyRegistered (name : String)
  | IncompatibleVersion (plugin : String) (required : String)
  | RegistryLocked

structure PluginRegistry where
  plugins : List (String × Plugin)
  disabled : List String

def PluginRegistry.new : PluginRegistry :=
  { plugins := [], disabled := [] }

/-- Model of `HashMap::contains_key` on the name map. -/
def PluginRegistry.containsName (r : PluginRegistry) (name : String) : Bool :=
  r.plugins.any (fun kv => kv.1 == name)

/-- Model of `register`: fail with `PluginAlreadyRegistered` when the name is
present, otherwise insert. -/
def PluginRegistry.register (r : PluginRegistry) (p : Plugin) :
    Except RegistryError Unit × PluginRegistry :=
  let name := p.name
  if r.containsName name then
    (Except.error (RegistryError.PluginAlreadyRegistered name), r)
  else
    (Except.ok (), { r with plugins := (name, p) :: r.plugins })

/-- Model of `unregister`: fail with `PluginNotFound` when absent, otherwise remove
the entry from the name map.  The disabled list is not touched. -/
def PluginRegistry.unregister (r : PluginRegistry) (name : String) :
    Except RegistryError Unit × PluginRegistry :=
  if r.containsName name then
    (Except.ok (), { r with plugins := r.plugins.filter (fun kv => kv.1 != name) })
  else
    (Except.error (RegistryError.PluginNotFound name), r)

/-- Model of `disable_plugin`: verify the plugin exists, then add the name to the
disabled list unless it is already there. -/
def PluginRegistry.disable_plugin (r : PluginRegistry) (name : String) :
    Except RegistryError Unit × PluginRegistry :=
  if r.containsName name then
    if r.disabled.contains name then (Except.ok (), r)
    else (Except.ok (), { r with disabled := r.disabled ++ [name] })
  else
    (Except.error (RegistryError.PluginNotFound name), r)

/-- Model of `enable_plugin`: retain every disabled name other than `name`; never
fails. -/
def PluginRegistry.enable_plugin (r : PluginRegistry) (name : String) :
    Except RegistryError Unit × PluginRegistry :=
  (Except.ok (), { r with disabled := r.disabled.filter (fun n => n != name) })

/-- Model of `is_disabled`: membership in the disabled list. -/
def PluginRegistry.is_disabled (r : PluginRegistry) (name : String) : Bool :=
  r.disabled.contains name

/-! ## Plugin discovery (`discovery.rs`)

`discover_plugins` enumerates the filesystem; its result is abstracted here
as the list of discovered candidate file names, in discovery order.
`find_plugin` only inspects those names — it never loads a file. -/

/-- Rust `Path::file_stem` on a file name: the whole name when it contains
no dot, or begins with its only dot; otherwise the portion before the final
dot. -/
def fileStemChars (comp : List Char) : Option (List Char) :=
  match comp with
  | [] => none
  | c :: rest =>
    if rest.contains '.' then
      some (c :: ((rest.reverse.dropWhile (fun x => x ≠ '.')).drop 1).reverse)
    else
      some (c :: rest)

def file_stem (p : String) : Option String :=
  match fileStemChars ((p.toList.reverse.takeWhile (fun c => c ≠ '/')).reverse) with
  | some s => some (String.mk s)
  | none => none

/-- The match test in `find_plugin`: the candidate's stem equals `name` or
equals `"lib" ++ name`. -/
def stemMatches (name : String) (p : String) : Bool :=
  match file_stem p with
  | some s => s == name || s == "lib" ++ name
  | none => false

/-- Model of `find_plugin`: scan discovered candidates in order, return the first
whose stem matches. -/
def find_plugin (plugin_files : List String) (name : String) : Option String :=
  match plugin_files with
  | [] => none
  | f :: rest => if stemMatches name f then some f else find_plugin rest name

/-! ## Common-log-format extractor (`print_clf` in `main.rs`)

`print_clf` runs the regular expression

  `(\d{1,3}\.\d{1,3}\.\d{1,3}\.\d{1,3}) \s (\S+) \s (\S+) \s (?:(\[.*?\]))
   \s "([A-Z]+)\s(\S+)\s(\S+)" \s (\d{3}) \s (\d+|-)`

with `captures_iter` (leftmost, non-overlapping search) over each non-empty
line.  The matcher below is a hand-compilation of that pattern under the
regex crate's leftmost-first semantics.  Greedy sub-matches whose
continuation starts with a character class disjoint from the repeated class
(`\d{1,3}` before `.` or `\s`, `\S+` before `\s`, `[A-Z]+` before `\s`)
cannot be rescued by giving characters back, so they are compiled to
maximal munch; the one place where backtracking is observable — the
protocol `\S+` followed by the literal closing quote — is compiled to an
explicit longest-first search over split points (`pProtoAux`). -/

structure LogRec where
  client : List Char
  user_identifier : List Char
  userid : List Char
  datetime : List Char
  method : List Char
  request : List Char
  protocol : List Char
  status : List Char
  size : List Char
deriving DecidableEq

/-- Matches `\d{1,3}` whose continuation requires a non-digit character. -/
def pUpTo3Digits (cs : List Char) : Option (List Char × List Char) :=
  let ds := cs.takeWhile rxDigit
  if 1 ≤ ds.length ∧ ds.length ≤ 3 then some (ds, cs.dropWhile rxDigit)
  else none

/-- A single literal character. -/
def pCharLit (a : Char) (cs : List Char) : Option (List Char) :=
  match cs with
  | c :: rest => if c = a then some rest else none
  | [] => none

/-- One `\s` character. -/
def pWs1 (cs : List Char) : Option (List Char) :=
  match cs with
  | c :: rest => if rxSpace c then some rest else none
  | [] => none

/-- Matches `\S+` whose continuation requires a whitespace character. -/
def pNonWs1 (cs : List Char) : Option (List Char × List Char) :=
  let t := cs.takeWhile (fun c => !rxSpace c)
  if t.isEmpty then none else some (t, cs.dropWhile (fun c => !rxSpace c))

/-- Matches `[A-Z]+` whose continuation requires a whitespace character. -/
def pUpper1 (cs : List Char) : Option (List Char × List Char) :=
  let t := cs.takeWhile rxUpperAZ
  if t.isEmpty then none else some (t, cs.dropWhile rxUpperAZ)

/-- Matches `(\[.*?\])`: an opening bracket, then lazily anything but a newline up
to the first closing bracket; the capture includes both brackets.  The lazy
`.*?` stops at the first `]` and fails if a newline comes first — exactly
the character the `dropWhile` below stops on. -/
def pBracket (cs : List Char) : Option (List Char × List Char) :=
  (pCharLit '[' cs).bind fun rest =>
  (pCharLit ']' (rest.dropWhile (fun c => c ≠ ']' ∧ c ≠ '\n'))).bind fun rest2 =>
  some ('[' :: rest.takeWhile (fun c => c ≠ ']' ∧ c ≠ '\n') ++ [']'], rest2)

/-- Matches `(\d{3})` whose continuation requires a non-digit character. -/
def p3Digits (cs : List Char) : Option (List Char × List Char) :=
  match cs with
  | a :: b :: c :: rest =>
    if rxDigit a && rxDigit b && rxDigit c then some ([a, b, c], rest) else none
  | _ => none

/-- Matches `(\d+|-)` at the end of the pattern: greedy digits first, else a
literal dash. -/
def pSize (cs : List Char) : Option (List Char × List Char) :=
  match cs with
  | c :: rest =>
    if rxDigit c then some (cs.takeWhile rxDigit, cs.dropWhile rxDigit)
    else if c = '-' then some (['-'], rest)
    else none
  | [] => none

/-- The pattern tail after the closing quote: `\s (\d{3}) \s (\d+|-)`,
returning (status, size, rest). -/
def pAfterQuote (cs : List Char) : Option (List Char × List Char × List Char) :=
  (pWs1 cs).bind fun cs1 =>
  (p3Digits cs1).bind fun str =>
  (pWs1 str.2).bind fun cs3 =>
  (pSize cs3).bind fun szr =>
  some (str.1, szr.1, szr.2)

/-- Backtracking for the protocol `(\S+)` followed by the literal `"`:
`R` is the maximal non-whitespace run at the current position and `rest0`
what follows it.  Try the split points longest-first; at each, the next
character must be the closing quote and the pattern tail must then match.
Returns (protocol, status, size, rest). -/
def pProtoAux (R rest0 : List Char) :
    Nat → Option (List Char × List Char × List Char × List Char)
  | 0 => none
  | k + 1 =>
    match R.drop (k + 1) ++ rest0 with
    | '"' :: rest1 =>
      match pAfterQuote rest1 with
      | some (st, sz, rest2) => some (R.take (k + 1), st, sz, rest2)
      | none => pProtoAux R rest0 k
    | _ => pProtoAux R rest0 k

/-- The client capture `(\d{1,3}\.\d{1,3}\.\d{1,3}\.\d{1,3})`. -/
def pQuartet (cs : List Char) : Option (List Char × List Char) :=
  (pUpTo3Digits cs).bind fun d1r =>
  (pCharLit '.' d1r.2).bind fun r2 =>
  (pUpTo3Digits r2).bind fun d2r =>
  (pCharLit '.' d2r.2).bind fun r4 =>
  (pUpTo3Digits r4).bind fun d3r =>
  (pCharLit '.' d3r.2).bind fun r6 =>
  (pUpTo3Digits r6).bind fun d4r =>
  some (d1r.1 ++ '.' :: d2r.1 ++ '.' :: d3r.1 ++ '.' :: d4r.1, d4r.2)

/-- The fixed-field head of the pattern: client quartet, `\s`,
user_identifier, `\s`, userid, `\s`, bracketed datetime, `\s`.  Returns the
four captures and the rest, positioned at the opening quote. -/
def pFixed (cs : List Char) :
    Option (List Char × List Char × List Char × List Char × List Char) :=
  (pQuartet cs).bind fun clr =>
  (pWs1 clr.2).bind fun r8 =>
  (pNonWs1 r8).bind fun u1r =>
  (pWs1 u1r.2).bind fun r10 =>
  (pNonWs1 r10).bind fun u2r =>
  (pWs1 u2r.2).bind fun r12 =>
  (pBracket r12).bind fun dtr =>
  (pWs1 dtr.2).bind fun r14 =>
  some (clr.1, u1r.1, u2r.1, dtr.1, r14)

/-- The quoted request part and the numeric tail, starting at the opening
quote: `"([A-Z]+)\s(\S+)\s(\S+)" \s (\d{3}) \s (\d+|-)`.  Returns
(method, request, protocol, status, size, rest). -/
def pQuoted (cs : List Char) :
    Option (List Char × List Char × List Char × List Char × List Char × List Char) :=
  (pCharLit '"' cs).bind fun r1 =>
  (pUpper1 r1).bind fun mr =>
  (pWs1 mr.2).bind fun r3 =>
  (pNonWs1 r3).bind fun reqr =>
  (pWs1 reqr.2).bind fun r5 =>
  (pProtoAux (r5.takeWhile (fun c => !rxSpace c)) (r5.dropWhile (fun c => !rxSpace c))
      (r5.takeWhile (fun c => !rxSpace c)).length).bind fun pr =>
  some (mr.1, reqr.1, pr.1, pr.2.1, pr.2.2.1, pr.2.2.2)

/-- One attempted match of the full pattern at the current position. -/
def matchAt (cs : List Char) : Option (LogRec × List Char) :=
  (pFixed cs).bind fun f =>
  (pQuoted f.2.2.2.2).bind fun q =>
  some ({ client := f.1, user_identifier := f.2.1, userid := f.2.2.1,
          datetime := f.2.2.2.1, method := q.1, request := q.2.1,
          protocol := q.2.2.1, status := q.2.2.2.1,
          size := q.2.2.2.2.1 }, q.2.2.2.2.2)

/-- Model of `captures_iter`: leftmost, non-overlapping search.  On failure the
start position advances by one character; on success the search resumes at
the end of the match.  The fuel argument bounds the number of steps; every
step consumes at least one character, so `length + 1` fuel suffices. -/
def searchAux : Nat → List Char → List LogRec
  | 0, _ => []
  | fuel + 1, cs =>
    match matchAt cs with
    | some (r, rest) => r :: searchAux fuel rest
    | none =>
      match cs with
      | [] => []
      | _ :: cs2 => searchAux fuel cs2

/-- The records `print_clf` extracts from one line (empty lines are skipped
before the regex runs). -/
def clfRecords (line : List Char) : List LogRec :=
  if line.isEmpty then [] else searchAux (line.length + 1) line

/-- The spec's notion of a line containing the quoted method/request/
protocol triple: somewhere in the line, a double quote followed by a
non-empty run of uppercase letters, a whitespace character, a non-empty
non-whitespace run, a whitespace character, and a non-empty non-whitespace
run containing a further double quote past its first character.  `tripleAt`
tests this at one position; `hasTriple` scans all positions. -/
def tripleAt : List Char → Bool
  | [] => false
  | c :: rest =>
    if c = '"' then
      if (rest.takeWhile rxUpperAZ).isEmpty then false
      else
        match rest.dropWhile rxUpperAZ with
        | [] => false
        | s1 :: rest2 =>
          if rxSpace s1 then
            if (rest2.takeWhile (fun c2 => !rxSpace c2)).isEmpty then false
            else
              match rest2.dropWhile (fun c2 => !rxSpace c2) with
              | [] => false
              | s2 :: rest3 =>
                if rxSpace s2 then
                  ((rest3.takeWhile (fun c2 => !rxSpace c2)).drop 1).contains '"'
                else false
          else false
    else false

def hasTriple : List Char → Bool
  | [] => false
  | c :: rest => tripleAt (c :: rest) || hasTriple rest

/-! ## Token highlighter (`print_highlighted`, `highlight_word`,
`highlight_chars` in `main.rs`)

Styling by the external `colored` crate is abstracted: a styled fragment
renders as an opening marker carrying a style code, the unchanged
characters, and a reset marker; an unstyled fragment renders as its raw
characters.  The specific code digits chosen for each colour are
placeholders for the crate's escape sequences and no property proved here
depends on them. -/

inductive Style where
  | normal
  | blue
  | redOnWhite
  | brightGreen
  | brightCyan
deriving DecidableEq

/-- Marker-wrapped rendering of one styled fragment. -/
def wrapStyle (code : List Char) (s : List Char) : List Char :=
  '\x1b' :: '[' :: code ++ 'm' :: s ++ ['\x1b', '[', '0', 'm']

def renderSeg (seg : Style × List Char) : List Char :=
  match seg.1 with
  | Style.normal => seg.2
  | Style.blue => wrapStyle ['3', '4'] seg.2
  | Style.redOnWhite => wrapStyle ['3', '1', ';', '4', '7'] seg.2
  | Style.brightGreen => wrapStyle ['9', '2'] seg.2
  | Style.brightCyan => wrapStyle ['9', '6'] seg.2

/-- The `number` matcher `^\d+$`: anchored, so the whole token must be one
or more digits. -/
def isNumber (w : List Char) : Bool :=
  !w.isEmpty && w.all rxDigit

/-- One step of the quartet containment test: `\d{1,3}` then a literal
dot at the current position.  Backtracking inside `\d{1,3}` cannot change
the outcome because shorter digit runs are still followed by a digit, not
a dot. -/
def octetDotAt (cs : List Char) : Option (List Char) :=
  let ds := cs.takeWhile rxDigit
  if 1 ≤ ds.length ∧ ds.length ≤ 3 then
    match cs.dropWhile rxDigit with
    | '.' :: rest => some rest
    | _ => none
  else none

/-- Does `\d{1,3}\.\d{1,3}\.\d{1,3}\.\d{1,3}` match starting exactly
here?  The final `\d{1,3}` is followed by `.*`, so one digit suffices. -/
def quadAt (cs : List Char) : Bool :=
  match octetDotAt cs with
  | none => false
  | some a =>
    match octetDotAt a with
    | none => false
    | some b =>
      match octetDotAt b with
      | none => false
      | some c =>
        match c with
        | d :: _ => rxDigit d
        | [] => false

/-- The `ip_addr` matcher `.*(\d{1,3}\.\d{1,3}\.\d{1,3}\.\d{1,3}).*` used
as a containment test (`is_match`). -/
def containsQuad : List Char → Bool
  | [] => false
  | c :: rest => quadAt (c :: rest) || containsQuad rest

/-- Matches `GET` or `POST` at the current position (alternation order as in the
pattern `(GET|POST)`). -/
def verbAt (cs : List Char) : Option (List Char × List Char) :=
  match cs with
  | 'G' :: 'E' :: 'T' :: r => some (['G', 'E', 'T'], r)
  | 'P' :: 'O' :: 'S' :: 'T' :: r => some (['P', 'O', 'S', 'T'], r)
  | _ => none

/-- The `http_verb` matcher `(.*)(GET|POST)(.*)`: the greedy leading `.*`
selects the rightmost verb occurrence; captures 1 and 3 are the text
before and after it.  Tokens reaching this matcher come from whitespace
splitting and so contain no newline, where this coincides with the
single-line semantics of `.`. -/
def verbSplitR : List Char → Option (List Char × List Char × List Char)
  | [] => none
  | c :: rest =>
    match verbSplitR rest with
    | some (pre, v, suf) => some (c :: pre, v, suf)
    | none =>
      match verbAt (c :: rest) with
      | some (v, suf) => some ([], v, suf)
      | none => none

/-- Model of `highlight_word`: the first matching rule of number, ip-containment,
verb-containment applies; otherwise the token is unstyled.  The number and
ip rules style the whole token; the verb rule styles only the verb,
keeping prefix and suffix raw. -/
def highlight_word (w : List Char) : List (Style × List Char) :=
  if isNumber w then [(Style.blue, w)]
  else if containsQuad w then [(Style.redOnWhite, w)]
  else
    match verbSplitR w with
    | some (pre, v, suf) =>
      [(Style.normal, pre), (Style.brightGreen, v), (Style.normal, suf)]
    | none => [(Style.normal, w)]

/-- Model of `highlight_chars`: style every double quote and every square bracket
character, pass all other characters through. -/
def highlight_chars (line : List Char) : List Char :=
  match line with
  | [] => []
  | c :: rest =>
    (if c = '"' then renderSeg (Style.brightCyan, [c])
     else if c = '[' ∨ c = ']' then renderSeg (Style.brightGreen, [c])
     else [c]) ++ highlight_chars rest

/-- Rust `str::split_whitespace`: split on Unicode-whitespace runs,
discarding empty pieces. -/
def splitWsAux : List Char → List Char → List (List Char)
  | [], acc => if acc.isEmpty then [] else [acc.reverse]
  | c :: rest, acc =>
    if rxSpace c then
      if acc.isEmpty then splitWsAux rest []
      else acc.reverse :: splitWsAux rest []
    else splitWsAux rest (c :: acc)

def splitWs (cs : List Char) : List (List Char) :=
  splitWsAux cs []

/-- Rust `str::trim`. -/
def trimRx (cs : List Char) : List Char :=
  ((cs.dropWhile rxSpace).reverse.dropWhile rxSpace).reverse

/-- The rendered characters of one highlighted word. -/
def renderWord (w : List Char) : List Char :=
  (highlight_word w).foldr (fun seg acc => renderSeg seg ++ acc) []

/-- Model of `print_highlighted`: run the character pass, split its output on
whitespace, render each word with a trailing space, and trim the result. -/
def print_highlighted (line : List Char) : List Char :=
  trimRx ((splitWs (highlight_chars line)).foldl
    (fun acc w => acc ++ renderWord w ++ [' ']) [])

/-- Substring containment over character lists (used to state that the
rendered output preserves literal substrings). -/
def containsSeq (pat : List Char) : List Char → Bool
  | [] => pat.isPrefixOf []
  | c :: rest => pat.isPrefixOf (c :: rest) || containsSeq pat rest

/-! ## Claim-side predicates and sample values -/

/-- The specified shape of the ip rule: every styled (non-normal) segment
produced for the token consists only of digits and dots, so any
surrounding characters sit in unstyled segments.  Stated from the spec's
words for comparison against `highlight_word`. -/
def styledSegsNumericOnly (w : List Char) : Bool :=
  (highlight_word w).all fun seg =>
    decide (seg.1 = Style.normal) || seg.2.all (fun c => rxDigit c || decide (c = '.'))

/-- A concrete plugin whose `parse_line` succeeds exactly on the line
`ok`; used to instantiate universally quantified theorems. -/
def samplePlugin (name : String) : Plugin :=
  { metadata := { name := name, version := ⟨1, 0, 0⟩, description := "", author := "" },
    parse_line := fun l => if l = "ok" then ParseResult.Parsed l else ParseResult.NoMatch }

/-- A concrete registry holding one plugin named `clf`, with `adhoc`
disabled by past misuse-free API calls not modelled here. -/
def sampleRegistry : PluginRegistry :=
  { plugins := [("clf", samplePlugin "clf")], disabled := [] }

/-! ## Helper lemmas -/

theorem dropWhile_isSuffix (p : Char → Bool) (l : List Char) : l.dropWhile p <:+ l :=
  ⟨l.takeWhile p, List.takeWhile_append_dropWhile p l⟩

/-! ## C1 — Tailer truncation handling -/

/-- C1 (code bug): at a change event where the file has shrunk below the
stored offset (current content `AB` of length 2, stored offset 4) the
watch loop performs no reset: the seek lands past end-of-file, the batch
emitted is empty rather than the entire current content, and the offset
becomes the new length, never 0. -/
theorem c1_truncation_not_reset :
    watchStep "AB".toList 4 = ([], 2) ∧ "AB".toList ≠ ([] : List Char) := by
  constructor
  · decide
  · decide

/-! ## C2 — version compatibility -/

/-- C2: `is_compatible_with v r` holds iff the majors agree and
`(v.minor, v.patch)` is lexicographically at least `(r.minor, r.patch)`;
hence it is reflexive, not symmetric (`(1,3,0)` against `(1,2,3)`), and
never holds in either direction across differing majors. -/
theorem c2_version_compatibility :
    (∀ v r : PluginVersion, v.is_compatible_with r = true ↔
      (v.major = r.major ∧
        (r.minor < v.minor ∨ (v.minor = r.minor ∧ r.patch ≤ v.patch)))) ∧
    (∀ v : PluginVersion, v.is_compatible_with v = true) ∧
    ((PluginVersion.mk 1 3 0).is_compatible_with (PluginVersion.mk 1 2 3) = true ∧
     (PluginVersion.mk 1 2 3).is_compatible_with (PluginVersion.mk 1 3 0) = false) ∧
    (∀ v r : PluginVersion, v.major ≠ r.major →
      v.is_compatible_with r = false ∧ r.is_compatible_with v = false) := by
  refine ⟨?_, ?_, by decide, ?_⟩
  · intro v r
    unfold PluginVersion.is_compatible_with
    split_ifs with h1 h2 h3 <;> simp_all <;> omega
  · intro v
    unfold PluginVersion.is_compatible_with
    split_ifs with h1 h2 h3 <;> simp_all
  · intro v r h
    unfold PluginVersion.is_compatible_with
    constructor <;> (split_ifs <;> simp_all)

theorem c2_version_compatibility_witness :
    (PluginVersion.mk 2 0 0).is_compatible_with (PluginVersion.mk 1 0 0) = false ∧
    (PluginVersion.mk 1 0 0).is_compatible_with (PluginVersion.mk 2 0 0) = false :=
  c2_version_compatibility.2.2.2 (PluginVersion.mk 2 0 0) (PluginVersion.mk 1 0 0)
    (by decide)

/-! ## C3 — Tailer delta exactness -/

/-- C3: starting from a file of any content, two separately observed
appends `X` then `Y` produce exactly the two batches `X` and `Y` — no
concatenation, no repetition of earlier content. -/
theorem c3_tailer_two_appends (init X Y : List Char) :
    tailBatches init [init ++ X, init ++ X ++ Y] = [X, Y] := by
  simp [tailBatches, tailBatches.go, watchStep, tailStartPos, List.drop_left]

/-! ## C4 — registration atomicity -/

/-- C4: registering a name already present fails with
`PluginAlreadyRegistered` and returns the registry state (mapping and
disabled set) exactly unchanged; registering an absent name inserts the
plugin and succeeds. -/
theorem c4_register_atomic (r : PluginRegistry) (p : Plugin) :
    (r.containsName p.name = true →
      r.register p = (Except.error (RegistryError.PluginAlreadyRegistered p.name), r)) ∧
    (r.containsName p.name = false →
      r.register p = (Except.ok (), { r with plugins := (p.name, p) :: r.plugins })) := by
  constructor <;> intro h <;> simp [PluginRegistry.register, h]

theorem c4_register_atomic_witness :
    sampleRegistry.register (samplePlugin "clf") =
      (Except.error (RegistryError.PluginAlreadyRegistered (samplePlugin "clf").name),
        sampleRegistry) :=
  (c4_register_atomic sampleRegistry (samplePlugin "clf")).1 (by rfl)

/-! ## C6 — detect_format -/

/-- C6: the default `detect_format` yields exactly 0 on an empty sample
set, exactly 1 when every sample is parseable, and exactly 1/2 on a
two-line sample with exactly one parseable line. -/
theorem c6_detect_format_values :
    (∀ p : Plugin, p.detect_format [] = 0) ∧
    (∀ (p : Plugin) (samples : List String), samples ≠ [] →
      (∀ l ∈ samples, p.can_parse l = true) → p.detect_format samples = 1) ∧
    (∀ (p : Plugin) (a b : String), p.can_parse a = true → p.can_parse b = false →
      p.detect_format [a, b] = 1 / 2 ∧ p.detect_format [b, a] = 1 / 2) := by
  refine ⟨fun p => by simp [Plugin.detect_format], ?_, ?_⟩
  · intro p samples hne hall
    have hf : samples.filter p.can_parse = samples :=
      List.filter_eq_self.mpr hall
    have hlen : (samples.length : Rat) ≠ 0 := by
      exact_mod_cast fun h => hne (List.length_eq_zero.mp (by exact_mod_cast h))
    simp [Plugin.detect_format, hne, hf, div_self hlen]
  · intro p a b ha hb
    constructor <;> simp [Plugin.detect_format, ha, hb]

theorem c6_detect_format_values_witness :
    (samplePlugin "t").detect_format ["ok", "no"] = 1 / 2 :=
  (c6_detect_format_values.2.2 (samplePlugin "t") "ok" "no" (by rfl) (by rfl)).1

/-! ## Registry helper lemmas -/

theorem contains_filter_ne_self (l : List String) (name : String) :
    (l.filter (fun n => n != name)).contains name = false := by
  rw [Bool.eq_false_iff]
  intro hc
  have := (List.mem_filter.mp (List.elem_iff.mp hc)).2
  simp at this

theorem contains_filter_ne (l : List String) (name m : String) (h : m ≠ name) :
    (l.filter (fun n => n != name)).contains m = l.contains m := by
  by_cases hc : m ∈ l
  · have h1 : (l.filter (fun n => n != name)).contains m = true :=
      List.elem_iff.mpr (List.mem_filter.mpr ⟨hc, by simp [h]⟩)
    have h2 : l.contains m = true := List.elem_iff.mpr hc
    rw [h1, h2]
  · have e1 : (l.filter (fun n => n != name)).contains m = false := by
      rw [Bool.eq_false_iff]
      intro hcc
      exact hc (List.mem_filter.mp (List.elem_iff.mp hcc)).1
    have e2 : l.contains m = false := by
      rw [Bool.eq_false_iff]
      intro hcc
      exact hc (List.elem_iff.mp hcc)
    rw [e1, e2]

theorem unregister_keeps_disabled (r : PluginRegistry) (name : String) :
    (r.unregister name).2.disabled = r.disabled := by
  unfold PluginRegistry.unregister
  split_ifs <;> rfl

theorem register_keeps_disabled (r : PluginRegistry) (p : Plugin) :
    (r.register p).2.disabled = r.disabled := by
  simp only [PluginRegistry.register]
  split_ifs <;> rfl

theorem disable_sets_disabled (r : PluginRegistry) (name : String)
    (h : r.containsName name = true) :
    (r.disable_plugin name).2.is_disabled name = true := by
  unfold PluginRegistry.disable_plugin PluginRegistry.is_disabled
  rw [if_pos h]
  by_cases hd : r.disabled.contains name = true
  · rw [if_pos hd]
    exact hd
  · rw [if_neg hd]
    exact List.elem_iff.mpr (by simp)

/-! ## C8 — disable / enable -/

/-- C8: `disable_plugin` fails with `PluginNotFound` exactly when the name
is not currently registered and otherwise succeeds putting the name in the
disabled set; `enable_plugin` always succeeds, leaves the name absent from
the disabled set, touches no other name, and is idempotent. -/
theorem c8_disable_enable (r : PluginRegistry) (name : String) :
    (r.containsName name = false →
      r.disable_plugin name = (Except.error (RegistryError.PluginNotFound name), r)) ∧
    (r.containsName name = true →
      (r.disable_plugin name).1 = Except.ok () ∧
      (r.disable_plugin name).2.is_disabled name = true) ∧
    (r.enable_plugin name).1 = Except.ok () ∧
    (r.enable_plugin name).2.is_disabled name = false ∧
    ((r.enable_plugin name).2.enable_plugin name = r.enable_plugin name) ∧
    (∀ m, m ≠ name → (r.enable_plugin name).2.is_disabled m = r.is_disabled m) := by
  refine ⟨?_, ?_, rfl, ?_, ?_, ?_⟩
  · intro h
    simp [PluginRegistry.disable_plugin, h]
  · intro h
    refine ⟨?_, disable_sets_disabled r name h⟩
    unfold PluginRegistry.disable_plugin
    rw [if_pos h]
    by_cases hd : r.disabled.contains name = true
    · rw [if_pos hd]
    · rw [if_neg hd]
  · exact contains_filter_ne_self r.disabled name
  · simp [PluginRegistry.enable_plugin, List.filter_filter]
  · intro m hm
    exact contains_filter_ne r.disabled name m hm

theorem c8_disable_enable_witness :
    (sampleRegistry.disable_plugin "clf").1 = Except.ok () ∧
    (sampleRegistry.disable_plugin "clf").2.is_disabled "clf" = true :=
  (c8_disable_enable sampleRegistry "clf").2.1 (by rfl)

/-! ## C10 — unregister leaves the disabled set alone -/

/-- C10: `unregister` removes the name only from the plugin mapping and
never changes the disabled set; hence a name that was disabled and then
unregistered stays disabled, stays disabled after a re-registration under
the same name, and becomes enabled only by `enable_plugin`. -/
theorem c10_unregister_disabled_frame :
    (∀ (r : PluginRegistry) (name : String),
      (r.unregister name).2.disabled = r.disabled) ∧
    (∀ (r : PluginRegistry) (name : String) (p : Plugin),
      r.containsName name = true →
      ((r.disable_plugin name).2.unregister name).2.is_disabled name = true ∧
      (((r.disable_plugin name).2.unregister name).2.register p).2.is_disabled name
        = true ∧
      ((((r.disable_plugin name).2.unregister name).2.register p).2.enable_plugin
        name).2.is_disabled name = false) := by
  refine ⟨fun r name => unregister_keeps_disabled r name, ?_⟩
  intro r name p h
  have h1 : (r.disable_plugin name).2.disabled.contains name = true :=
    disable_sets_disabled r name h
  refine ⟨?_, ?_, ?_⟩
  · show ((r.disable_plugin name).2.unregister name).2.disabled.contains name = true
    rw [unregister_keeps_disabled]
    exact h1
  · show (((r.disable_plugin name).2.unregister name).2.register
      p).2.disabled.contains name = true
    rw [register_keeps_disabled, unregister_keeps_disabled]
    exact h1
  · show ((((r.disable_plugin name).2.unregister name).2.register
      p).2.disabled.filter (fun n => n != name)).contains name = false
    exact contains_filter_ne_self _ name

theorem c10_unregister_disabled_frame_witness :
    ((sampleRegistry.disable_plugin "clf").2.unregister "clf").2.is_disabled "clf"
      = true :=
  (c10_unregister_disabled_frame.2 sampleRegistry "clf" (samplePlugin "adhoc")
    (by rfl)).1

/-! ## C9 — discovery findByName -/

/-- C9: `find_plugin` returns the first discovered candidate whose file
stem equals the requested name or `lib` prepended to it, and `none` when no
candidate matches; in particular `libapache.so` and `apache.dylib` both
match the name `apache`. -/
theorem c9_find_by_name :
    (∀ (files : List String) (name : String),
      find_plugin files name = files.find? (stemMatches name)) ∧
    (∀ (files : List String) (name : String),
      (∀ f ∈ files, stemMatches name f = false) → find_plugin files name = none) ∧
    find_plugin ["libapache.so"] "apache" = some "libapache.so" ∧
    find_plugin ["apache.dylib"] "apache" = some "apache.dylib" := by
  have hfind : ∀ (files : List String) (name : String),
      find_plugin files name = files.find? (stemMatches name) := by
    intro files name
    induction files with
    | nil => rfl
    | cons a t ih =>
      by_cases h : stemMatches name a = true
      · simp [find_plugin, h, List.find?_cons_of_pos, List.find?]
      · simp only [find_plugin, h, List.find?]
        simp [h, ih]
  refine ⟨hfind, ?_, by decide, by decide⟩
  intro files name h
  rw [hfind]
  exact List.find?_eq_none.mpr (fun x hx => by simp [h x hx])

theorem c9_find_by_name_witness : find_plugin ["notes.txt"] "apache" = none :=
  c9_find_by_name.2.1 ["notes.txt"] "apache" (by decide)

/-! ## Highlighter helper lemmas -/

theorem verbAt_spec (cs : List Char) (x : List Char × List Char)
    (h : verbAt cs = some x) :
    cs = x.1 ++ x.2 ∧ (x.1 = "GET".toList ∨ x.1 = "POST".toList) := by
  unfold verbAt at h
  split at h
  · cases h
    exact ⟨rfl, Or.inl rfl⟩
  · cases h
    exact ⟨rfl, Or.inr rfl⟩
  · simp at h

theorem verbSplitR_spec (w : List Char) :
    ∀ (pre v suf : List Char), verbSplitR w = some (pre, v, suf) →
      pre ++ v ++ suf = w ∧ (v = "GET".toList ∨ v = "POST".toList) := by
  induction w with
  | nil =>
    intro pre v suf h
    simp [verbSplitR] at h
  | cons c rest ih =>
    intro pre v suf h
    unfold verbSplitR at h
    cases hrec : verbSplitR rest with
    | some t =>
      obtain ⟨p1, p2, p3⟩ := t
      rw [hrec] at h
      simp only [Option.some.injEq, Prod.mk.injEq] at h
      obtain ⟨h1, h2, h3⟩ := h
      subst h1 h2 h3
      obtain ⟨hw, hv⟩ := ih p1 p2 p3 hrec
      exact ⟨by simpa using congrArg (c :: ·) hw, hv⟩
    | none =>
      rw [hrec] at h
      cases hva : verbAt (c :: rest) with
      | none =>
        rw [hva] at h
        simp at h
      | some u =>
        obtain ⟨uv, us⟩ := u
        rw [hva] at h
        simp only [Option.some.injEq, Prod.mk.injEq] at h
        obtain ⟨h1, h2, h3⟩ := h
        subst h1 h2 h3
        obtain ⟨hw, hv⟩ := verbAt_spec _ _ hva
        exact ⟨by simpa using hw.symm, hv⟩

/-! ## C7 — token highlighter word pass -/

/-- C7 counterexample: on the token `a1.2.3.4` — not all digits, containing
a dotted quad — the code styles the entire token red-on-white, so the
surrounding character `a` sits inside the styled segment rather than being
left unstyled as the claim requires. -/
theorem c7_ip_rule_counterexample :
    highlight_word "a1.2.3.4".toList = [(Style.redOnWhite, "a1.2.3.4".toList)] ∧
    styledSegsNumericOnly "a1.2.3.4".toList = false := by
  constructor <;> decide

/-- C7 (amended): the first matching rule applies — all-digit tokens are
styled as numbers; otherwise a token containing a dotted quad is styled
red-on-white in its entirety (the ip regex is used only as a containment
test; the whole token, surrounding characters included, receives the
style); otherwise a contained GET or POST verb is styled with its prefix
and suffix preserved verbatim; otherwise the token is unstyled.  The verb
conjunct assumes the token contains no whitespace character — exactly the
tokens the whitespace splitter produces — since on such tokens (which are
newline-free) the capture model coincides with the single-line semantics
of `.` in the verb regex.  On the input `192.168.1.1 GET /api HTTP/1.1`
the rendered output preserves the literal substrings `192.168.1.1`, `GET`
and `HTTP/1.1` unaltered. -/
theorem c7_highlight_word_rules :
    (∀ w : List Char, isNumber w = true → highlight_word w = [(Style.blue, w)]) ∧
    (∀ w : List Char, isNumber w = false → containsQuad w = true →
      highlight_word w = [(Style.redOnWhite, w)]) ∧
    (∀ (w pre v suf : List Char), w.all (fun c => !rxSpace c) = true →
      isNumber w = false → containsQuad w = false →
      verbSplitR w = some (pre, v, suf) →
      highlight_word w =
        [(Style.normal, pre), (Style.brightGreen, v), (Style.normal, suf)] ∧
      pre ++ v ++ suf = w ∧ (v = "GET".toList ∨ v = "POST".toList)) ∧
    (∀ w : List Char, isNumber w = false → containsQuad w = false →
      verbSplitR w = none → highlight_word w = [(Style.normal, w)]) ∧
    containsSeq "192.168.1.1".toList
      (print_highlighted "192.168.1.1 GET /api HTTP/1.1".toList) = true ∧
    containsSeq "GET".toList
      (print_highlighted "192.168.1.1 GET /api HTTP/1.1".toList) = true ∧
    containsSeq "HTTP/1.1".toList
      (print_highlighted "192.168.1.1 GET /api HTTP/1.1".toList) = true := by
  refine ⟨?_, ?_, ?_, ?_, by decide, by decide, by decide⟩
  · intro w h
    simp [highlight_word, h]
  · intro w h1 h2
    simp [highlight_word, h1, h2]
  · intro w pre v suf hw h1 h2 h3
    exact ⟨by simp [highlight_word, h1, h2, h3],
      (verbSplitR_spec w pre v suf h3).1, (verbSplitR_spec w pre v suf h3).2⟩
  · intro w h1 h2 h3
    simp [highlight_word, h1, h2, h3]

theorem c7_highlight_word_rules_witness :
    highlight_word "42".toList = [(Style.blue, "42".toList)] :=
  c7_highlight_word_rules.1 "42".toList (by decide)

/-! ## CLF matcher helper lemmas -/

theorem pCharLit_spec {a : Char} {cs r : List Char} (h : pCharLit a cs = some r) :
    cs = a :: r := by
  unfold pCharLit at h
  split at h
  · rename_i c rest
    split at h
    · rename_i hc
      cases h
      rw [hc]
    · simp at h
  · simp at h

theorem pCharLit_suffix {a : Char} {cs r : List Char} (h : pCharLit a cs = some r) :
    r <:+ cs := by
  rw [pCharLit_spec h]
  exact List.suffix_cons a r

theorem pWs1_spec {cs r : List Char} (h : pWs1 cs = some r) :
    ∃ c, cs = c :: r ∧ rxSpace c = true := by
  unfold pWs1 at h
  split at h
  · rename_i c rest
    split at h
    · rename_i hc
      cases h
      exact ⟨c, rfl, hc⟩
    · simp at h
  · simp at h

theorem pWs1_suffix {cs r : List Char} (h : pWs1 cs = some r) : r <:+ cs := by
  obtain ⟨c, rfl, -⟩ := pWs1_spec h
  exact List.suffix_cons c r

theorem pUpTo3Digits_spec {cs : List Char} {x : List Char × List Char}
    (h : pUpTo3Digits cs = some x) : x.2 = cs.dropWhile rxDigit := by
  simp only [pUpTo3Digits] at h
  split at h
  · cases h
    rfl
  · simp at h

theorem pUpTo3Digits_suffix {cs : List Char} {x : List Char × List Char}
    (h : pUpTo3Digits cs = some x) : x.2 <:+ cs := by
  rw [pUpTo3Digits_spec h]
  exact dropWhile_isSuffix rxDigit cs

theorem pNonWs1_spec {cs : List Char} {x : List Char × List Char}
    (h : pNonWs1 cs = some x) :
    x = (cs.takeWhile (fun c => !rxSpace c), cs.dropWhile (fun c => !rxSpace c)) ∧
    (cs.takeWhile (fun c => !rxSpace c)).isEmpty = false := by
  simp only [pNonWs1] at h
  split at h
  · simp at h
  · rename_i hne
    cases h
    exact ⟨rfl, Bool.eq_false_iff.mpr hne⟩

theorem pNonWs1_suffix {cs : List Char} {x : List Char × List Char}
    (h : pNonWs1 cs = some x) : x.2 <:+ cs := by
  rw [(pNonWs1_spec h).1]
  exact dropWhile_isSuffix _ cs

theorem pUpper1_spec {cs : List Char} {x : List Char × List Char}
    (h : pUpper1 cs = some x) :
    x = (cs.takeWhile rxUpperAZ, cs.dropWhile rxUpperAZ) ∧
    (cs.takeWhile rxUpperAZ).isEmpty = false := by
  simp only [pUpper1] at h
  split at h
  · simp at h
  · rename_i hne
    cases h
    exact ⟨rfl, Bool.eq_false_iff.mpr hne⟩

theorem pBracket_suffix {cs : List Char} {x : List Char × List Char}
    (h : pBracket cs = some x) : x.2 <:+ cs := by
  unfold pBracket at h
  simp only [Option.bind_eq_some] at h
  obtain ⟨rest, h1, rest2, h2, h3⟩ := h
  cases h3
  exact ((pCharLit_suffix h2).trans (dropWhile_isSuffix _ rest)).trans
    (pCharLit_suffix h1)

theorem pQuartet_suffix {cs : List Char} {x : List Char × List Char}
    (h : pQuartet cs = some x) : x.2 <:+ cs := by
  unfold pQuartet at h
  simp only [Option.bind_eq_some] at h
  obtain ⟨d1r, h1, r2, h2, d2r, h3, r4, h4, d3r, h5, r6, h6, d4r, h7, h⟩ := h
  cases h
  have s7 := pUpTo3Digits_suffix h7
  have s6 := s7.trans (pCharLit_suffix h6)
  have s5 := s6.trans (pUpTo3Digits_suffix h5)
  have s4 := s5.trans (pCharLit_suffix h4)
  have s3 := s4.trans (pUpTo3Digits_suffix h3)
  have s2 := s3.trans (pCharLit_suffix h2)
  exact s2.trans (pUpTo3Digits_suffix h1)

theorem pFixed_suffix {cs : List Char}
    {x : List Char × List Char × List Char × List Char × List Char}
    (h : pFixed cs = some x) : x.2.2.2.2 <:+ cs := by
  unfold pFixed at h
  simp only [Option.bind_eq_some] at h
  obtain ⟨clr, h1, r8, h2, u1r, h3, r10, h4, u2r, h5, r12, h6, dtr, h7, r14, h8, h⟩ := h
  cases h
  have s8 := pWs1_suffix h8
  have s7 := s8.trans (pBracket_suffix h7)
  have s6 := s7.trans (pWs1_suffix h6)
  have s5 := s6.trans (pNonWs1_suffix h5)
  have s4 := s5.trans (pWs1_suffix h4)
  have s3 := s4.trans (pNonWs1_suffix h3)
  have s2 := s3.trans (pWs1_suffix h2)
  exact s2.trans (pQuartet_suffix h1)

theorem dropWhile_head_false (p : Char → Bool) (l : List Char) :
    ∀ c, (l.dropWhile p).head? = some c → p c = false := by
  induction l with
  | nil =>
    intro c h
    simp at h
  | cons a t ih =>
    intro c h
    rw [List.dropWhile_cons] at h
    split at h
    · exact ih c h
    · rename_i hp
      simp at h
      subst h
      exact Bool.eq_false_iff.mpr hp

theorem pProtoAux_quote : ∀ (k : Nat) (R rest0 : List Char)
    (x : List Char × List Char × List Char × List Char),
    pProtoAux R rest0 k = some x → rest0.head? ≠ some '"' →
    (R.drop 1).contains '"' = true := by
  intro k
  induction k with
  | zero =>
    intro R rest0 x h hr
    simp [pProtoAux] at h
  | succ k ih =>
    intro R rest0 x h hr
    unfold pProtoAux at h
    split at h
    · rename_i rest1 heq
      split at h
      · -- the closing quote was found after the chosen split point
        cases hd : R.drop (k + 1) with
        | nil =>
          rw [hd] at heq
          simp at heq
          exact absurd (by rw [heq]; rfl) hr
        | cons d tail =>
          rw [hd] at heq
          simp only [List.cons_append, List.cons.injEq] at heq
          have hmem : '"' ∈ R.drop (k + 1) := by
            rw [hd, ← heq.1]
            exact List.mem_cons_self d tail
          have hsub : R.drop (k + 1) ⊆ R.drop 1 := by
            have hdd : (R.drop 1).drop k = R.drop (k + 1) := by
              rw [List.drop_drop, Nat.add_comm]
            rw [← hdd]
            exact List.drop_subset k (R.drop 1)
          exact List.elem_iff.mpr (hsub hmem)
      · exact ih R rest0 x h hr
    · exact ih R rest0 x h hr

theorem tripleAt_quote (r1 : List Char)
    (h1 : (r1.takeWhile rxUpperAZ).isEmpty = false)
    (s1 : Char) (r3 : List Char)
    (h2 : r1.dropWhile rxUpperAZ = s1 :: r3) (h3 : rxSpace s1 = true)
    (h4 : (r3.takeWhile (fun c => !rxSpace c)).isEmpty = false)
    (s2 : Char) (r5 : List Char)
    (h5 : r3.dropWhile (fun c => !rxSpace c) = s2 :: r5) (h6 : rxSpace s2 = true)
    (h7 : ((r5.takeWhile (fun c => !rxSpace c)).drop 1).contains '"' = true) :
    tripleAt ('"' :: r1) = true := by
  simp [tripleAt, h1, h2, h3, h4, h5, h6]
  have h7m : '"' ∈ (r5.takeWhile (fun c => !rxSpace c)).drop 1 :=
    List.elem_iff.mp h7
  simpa [List.drop_one] using h7m

theorem pQuoted_tripleAt {cs : List Char}
    {q : List Char × List Char × List Char × List Char × List Char × List Char}
    (h : pQuoted cs = some q) : tripleAt cs = true := by
  unfold pQuoted at h
  simp only [Option.bind_eq_some] at h
  obtain ⟨r1, h1, mr, h2, r3, h3, reqr, h4, r5, h5, pr, h6, -⟩ := h
  obtain rfl := pCharLit_spec h1
  obtain ⟨hmr, hm1⟩ := pUpper1_spec h2
  subst hmr
  obtain ⟨s1, hws1, hsp1⟩ := pWs1_spec h3
  obtain ⟨hreqr, hr4⟩ := pNonWs1_spec h4
  subst hreqr
  obtain ⟨s2, hws2, hsp2⟩ := pWs1_spec h5
  have hrest : (r5.dropWhile (fun c => !rxSpace c)).head? ≠ some '"' := by
    intro hc
    have hh := dropWhile_head_false (fun c => !rxSpace c) r5 '"' hc
    simp only [Bool.not_eq_false] at hh
    exact absurd hh (by decide)
  have h7 := pProtoAux_quote _ _ _ _ h6 hrest
  exact tripleAt_quote r1 hm1 s1 r3 hws1 hsp1 hr4 s2 r5 hws2 hsp2 h7

theorem tripleAt_hasTriple {cs : List Char} (h : tripleAt cs = true) :
    hasTriple cs = true := by
  cases cs with
  | nil => simp [tripleAt] at h
  | cons c rest =>
    unfold hasTriple
    rw [h]
    rfl

theorem hasTriple_mono {s cs : List Char} (hsuf : s <:+ cs)
    (h : hasTriple s = true) : hasTriple cs = true := by
  obtain ⟨t, rfl⟩ := hsuf
  induction t with
  | nil => simpa using h
  | cons a t ih =>
    show hasTriple (a :: (t ++ s)) = true
    unfold hasTriple
    rw [ih]
    simp

theorem matchAt_hasTriple {cs : List Char} {x : LogRec × List Char}
    (h : matchAt cs = some x) : hasTriple cs = true := by
  unfold matchAt at h
  simp only [Option.bind_eq_some] at h
  obtain ⟨f, hf, q, hq, -⟩ := h
  exact hasTriple_mono (pFixed_suffix hf) (tripleAt_hasTriple (pQuoted_tripleAt hq))

theorem searchAux_succ (fuel : Nat) (cs : List Char) :
    searchAux (fuel + 1) cs =
      match matchAt cs with
      | some (r, rest) => r :: searchAux fuel rest
      | none =>
        match cs with
        | [] => []
        | _ :: cs2 => searchAux fuel cs2 := rfl

theorem searchAux_nil : ∀ (fuel : Nat) (cs : List Char),
    hasTriple cs = false → searchAux fuel cs = [] := by
  intro fuel
  induction fuel with
  | zero =>
    intro cs h
    rfl
  | succ fuel ih =>
    intro cs h
    rw [searchAux_succ]
    cases hm : matchAt cs with
    | some x =>
      rw [matchAt_hasTriple hm] at h
      exact absurd h (by simp)
    | none =>
      cases cs with
      | nil => rfl
      | cons c rest =>
        have h2 : hasTriple rest = false := by
          unfold hasTriple at h
          exact (Bool.or_eq_false_iff.mp h).2
        exact ih rest h2

/-! ## C5 — structured (common log format) parser -/

/-- C5: the reference access-log line yields exactly one record with the
claimed field values; an empty line yields no record; the same line with
the quoted request triple removed yields no record; and in general any
line that contains no quoted method/request/protocol triple produces no
record at all — it is dropped silently, `clfRecords` returning the empty
list rather than an error or a partial record. -/
theorem c5_clf_extraction :
    clfRecords ("127.0.0.1 - frank [10/Oct/2000:13:55:36 -0700] \"GET /apache_pb.gif HTTP/1.0\" 200 2326".toList) =
      [{ client := "127.0.0.1".toList, user_identifier := "-".toList,
         userid := "frank".toList,
         datetime := "[10/Oct/2000:13:55:36 -0700]".toList,
         method := "GET".toList, request := "/apache_pb.gif".toList,
         protocol := "HTTP/1.0".toList, status := "200".toList,
         size := "2326".toList }] ∧
    clfRecords [] = [] ∧
    clfRecords ("127.0.0.1 - frank [10/Oct/2000:13:55:36 -0700] 200 2326".toList)
      = [] ∧
    (∀ line : List Char, hasTriple line = false → clfRecords line = []) := by
  refine ⟨by decide, rfl, by decide, ?_⟩
  intro line h
  unfold clfRecords
  split
  · rfl
  · exact searchAux_nil _ line h

theorem c5_clf_extraction_witness : clfRecords "hello world".toList = [] :=
  c5_clf_extraction.2.2.2 "hello world".toList (by decide)
